import Mathlib

/-!
Text drawing cache and settings search of the PPSSPP front-end.

A shallow embedding of

* `Common/Render/Text/draw_text.h`: the premultiplied-alpha conversions of `TextDrawer`,
  the cache key `TextDrawer::CacheKey` with its `operator <`, and the two caches;
* `UI/TabbedDialogScreen.cpp`: `UITabbedBaseDialogScreen::sendMessage` and
  `UITabbedBaseDialogScreen::ApplySearchFilter`.

Conventions of the embedding.

* A `u32` is a natural number below `2 ^ 32`; every C++ operation that can leave the range is
  followed by `wrap32` (reduction modulo `2 ^ 32`), a `u16` conversion by `wrap16`.
* A `std::string` is the list of its bytes (`List Nat`, each byte `0 .. 255`).
* A pointer into a list of views is the index of the view it points to.

The file is laid out as definitions first, then lemmas and theorems.
-/

/-! ## Definitions: `draw_text.h` -/

/-- The struct `TextStringEntry` of `draw_text.h`. The texture pointer is an optional handle. -/
structure TextStringEntry where
  texture : Option Nat
  width : Int
  height : Int
  bmWidth : Int
  bmHeight : Int
  lastUsedFrame : Int
  deriving DecidableEq, Repr

/-- The struct `TextMeasureEntry` of `draw_text.h`. -/
structure TextMeasureEntry where
  width : Int
  height : Int
  leading : Int
  lastUsedFrame : Int
  deriving DecidableEq, Repr

/-- The struct `TextDrawer::CacheKey`: the key text and the hash of the selected font. -/
structure TextDrawer.CacheKey where
  text : List Nat
  fontHash : Nat
  deriving DecidableEq, Repr

/-- The integer and cache members of class `TextDrawer`: `frameCount_`, `fontHash_` and the
two `std::map`s, each as the list of its (key, entry) pairs. The float scale members play no
part in what follows. -/
structure TextDrawer where
  frameCount_ : Int
  fontHash_ : Nat
  cache_ : List (TextDrawer.CacheKey × TextStringEntry)
  sizeCache_ : List (TextDrawer.CacheKey × TextMeasureEntry)
  deriving DecidableEq, Repr

namespace TextDrawer

/-- Reduction of a natural number to the range of `u32`. -/
def wrap32 (n : Nat) : Nat := n % 2 ^ 32

/-- Reduction of a natural number to the range of `u16`. -/
def wrap16 (n : Nat) : Nat := n % 2 ^ 16

/-- `static u16 AlphaToPremul4444(u32 v)`:
`v = (v >> 4) & 0x0F; v |= v << 4; v |= v << 8; return v;` -/
def AlphaToPremul4444 (v : Nat) : Nat :=
  let v := (v >>> 4) &&& 0x0F
  let v := v ||| wrap32 (v <<< 4)
  let v := v ||| wrap32 (v <<< 8)
  wrap16 v

/-- `static u32 AlphaToPremul8888(u32 v)`: `v |= v << 8; v |= v << 16; return v;` -/
def AlphaToPremul8888 (v : Nat) : Nat :=
  let v := v ||| wrap32 (v <<< 8)
  let v := v ||| wrap32 (v <<< 16)
  v

/-- `static u32 RGBAToPremul8888(u32 v)`, statement by statement. -/
def RGBAToPremul8888 (v : Nat) : Nat :=
  let a := (v >>> 24) &&& 0xFF
  if a = 0xFF then v
  else if a = 0 then 0
  else
    let r := (v >>> 16) &&& 0xFF
    let g := (v >>> 8) &&& 0xFF
    let b := v &&& 0xFF
    let r := wrap32 (wrap32 (r * a) + 127) / 255
    let g := wrap32 (wrap32 (g * a) + 127) / 255
    let b := wrap32 (wrap32 (b * a) + 127) / 255
    wrap32 (a <<< 24) ||| wrap32 (r <<< 16) ||| wrap32 (g <<< 8) ||| b

/-- The comparison `text < other.text` of two `std::string`s: the first differing byte decides
(bytes compared as unsigned values), and a proper leading part of a string is less than the
string. -/
def stringLess : List Nat → List Nat → Bool
  | [], [] => false
  | [], _ :: _ => true
  | _ :: _, [] => false
  | a :: as, b :: bs =>
    if a < b then true
    else if b < a then false
    else stringLess as bs

/-- `bool CacheKey::operator < (const CacheKey &other) const`. -/
def CacheKey.operatorLt (self other : CacheKey) : Bool :=
  if self.fontHash < other.fontHash then true
  else if self.fontHash > other.fontHash then false
  else stringLess self.text other.text

/-- Two keys address the same slot of a `std::map` ordered by `operator <` when neither
compares less than the other. -/
def CacheKey.sameSlot (k1 k2 : CacheKey) : Bool :=
  !k1.operatorLt k2 && !k2.operatorLt k1

/-- The uniqueness guarantee of `std::map`, on the list of the keys it holds: no two of its
elements have keys that address the same slot. -/
def UniqueKeys (keys : List CacheKey) : Prop :=
  keys.Pairwise (fun a b => a.sameSlot b = false)

/-- Modelled from the spec: the body of `TextDrawer::OncePerFrame`, of which `draw_text.h`
only has the declaration. "Advances the frame counter, then scans both caches and evicts any
entry whose `lastUsedFrame` is older than a fixed threshold". The threshold is a parameter;
an entry is older than it when the new frame counter minus its `lastUsedFrame` exceeds it. -/
def OncePerFrame (threshold : Int) (self : TextDrawer) : TextDrawer :=
  let frameCount := self.frameCount_ + 1
  { self with
    frameCount_ := frameCount
    cache_ := self.cache_.filter
      (fun e => !decide (frameCount - e.2.lastUsedFrame > threshold))
    sizeCache_ := self.sizeCache_.filter
      (fun e => !decide (frameCount - e.2.lastUsedFrame > threshold)) }

/-- Two keys of one font hash, for the text `a` and the text `b`. -/
def exampleKeys : List CacheKey :=
  [{ text := [97], fontHash := 7 }, { text := [98], fontHash := 7 }]

end TextDrawer

/-! ## Definitions: `TabbedDialogScreen.cpp` -/

namespace UI

/-- The enum `UI::Visibility` of the view toolkit. -/
inductive Visibility where
  | V_VISIBLE
  | V_INVISIBLE
  | V_GONE
  deriving DecidableEq, Repr

/-- A view of the toolkit, as far as `ApplySearchFilter` looks at it: the answers of
`IsViewGroup()`, `Tag()`, `CanBeFocused()` and `DescribeText()`, its visibility, and (for a
view group) its subviews. -/
inductive View where
  | mk (isViewGroup : Bool) (tag : List Nat) (canBeFocused : Bool) (describeText : List Nat)
      (visibility : Visibility) (subviews : List View) : View

namespace View

/-- `View::IsViewGroup()`. -/
def IsViewGroup : View → Bool
  | mk g _ _ _ _ _ => g

/-- `View::Tag()`. -/
def Tag : View → List Nat
  | mk _ t _ _ _ _ => t

/-- `View::CanBeFocused()`. -/
def CanBeFocused : View → Bool
  | mk _ _ c _ _ _ => c

/-- `View::DescribeText()`. -/
def DescribeText : View → List Nat
  | mk _ _ _ d _ _ => d

/-- `View::GetVisibility()`. -/
def GetVisibility : View → Visibility
  | mk _ _ _ _ vis _ => vis

/-- `View::SetVisibility(vis)`: only the visibility of the view changes. -/
def SetVisibility : View → Visibility → View
  | mk g t c d _ subs, vis => mk g t c d vis subs

/-- The list of settings that `ApplySearchFilter` reaches from a tab's content view:
`while (tabContents->GetNumSubviews() == 1)` it steps into the only subview when that is a
view group, and stops otherwise. The result is the subviews of the group reached. -/
def settingsList : View → List View
  | mk _ _ _ _ _ [child] => if child.IsViewGroup then settingsList child else [child]
  | mk _ _ _ _ _ subs => subs

/-- The same descent as `settingsList`, running `body` on the subviews of the group reached
and storing what it leaves there; the second component is what `body` computed. -/
def onSettingsList {β : Type} (body : List View → List View × β) : View → View × β
  | mk g t c d vis [child] =>
    if child.IsViewGroup then
      let r := onSettingsList body child
      (mk g t c d vis [r.1], r.2)
    else
      let r := body [child]
      (mk g t c d vis r.1, r.2)
  | mk g t c d vis subs =>
    let r := body subs
    (mk g t c d vis r.1, r.2)

end View

/-- One tab of the `TabHolder`: its content view (an element of `GetTabContentViews()`) and
the flag that `EnableTab` sets. -/
structure Tab where
  contents : View
  enabled : Bool

end UI

/-- The function `tolower` of the C library in the "C" locale, on a byte. -/
def tolower (c : Nat) : Nat :=
  if 65 ≤ c ∧ c ≤ 90 then c + 32 else c

/-- The search of `std::string::find`, from the current position on: the first position at
which `needle` starts, if any. -/
def findFrom (needle : List Nat) : List Nat → Nat → Option Nat
  | [], pos => if needle.isPrefixOf [] then some pos else none
  | c :: cs, pos =>
    if needle.isPrefixOf (c :: cs) then some pos else findFrom needle cs (pos + 1)

/-- `self.find(str)` of `std::string`; the result `npos` is `none`. -/
def stringFind (self str : List Nat) : Option Nat :=
  findFrom str self 0

/-- The messages of `enum class UIMessage`: the one `sendMessage` reacts to, and the rest. -/
inductive UIMessage where
  | GAMESETTINGS_SEARCH
  | other (code : Nat)
  deriving DecidableEq, Repr

/-- The members of `UITabbedBaseDialogScreen` that the search touches: the tabs of
`tabHolder_` (all created, as `EnsureTabs` leaves them), the visibility of the three views
`filterNotice_`, `clearSearchChoice_` and `noSearchResults_` (taken as created, which
`CreateViews` does when it adds the search tab), and `searchFilter_`. The texts set on the two
notices come from the translation tables and are left out. -/
structure UITabbedBaseDialogScreen where
  tabHolder_ : List UI.Tab
  filterNotice_ : UI.Visibility
  clearSearchChoice_ : UI.Visibility
  noSearchResults_ : UI.Visibility
  searchFilter_ : List Nat

namespace UITabbedBaseDialogScreen
open UI

/-- The bytes of the tag `GameSettingsSearch`. -/
def searchTabTag : List Nat :=
  [71, 97, 109, 101, 83, 101, 116, 116, 105, 110, 103, 115, 83, 101, 97, 114, 99, 104]

/-- The variables of the inner loop of `ApplySearchFilter`: the views of the settings list,
the pointer `lastHeading` (an index into `views`) and `tabMatches`. -/
structure FilterLoop where
  views : List View
  lastHeading : Option Nat
  tabMatches : Bool

/-- The call `views[i]->SetVisibility(vis)`. -/
def setVisibilityAt (views : List View) (i : Nat) (vis : Visibility) : List View :=
  match views[i]? with
  | some v => views.set i (v.SetVisibility vis)
  | none => views

/-- One round of the inner loop of `ApplySearchFilter`, for the index `i`. -/
def filterView (searchFilter_ : List Nat) (st : FilterLoop) (i : Nat) : FilterLoop :=
  match st.views[i]? with
  | none => st
  | some v =>
    let lastHeading := if !v.CanBeFocused then some i else st.lastHeading
    let label := v.DescribeText.map tolower
    let isMatch := v.CanBeFocused && (stringFind label searchFilter_).isSome
    let tabMatches := st.tabMatches || isMatch
    let views :=
      match isMatch, lastHeading with
      | true, some h => setVisibilityAt st.views h Visibility.V_VISIBLE
      | _, _ => st.views
    let views := setVisibilityAt views i
      (if searchFilter_.isEmpty || isMatch then Visibility.V_VISIBLE else Visibility.V_GONE)
    { views := views, lastHeading := lastHeading, tabMatches := tabMatches }

/-- The inner loop `for (int i = 1; i < tabContents->GetNumSubviews(); ++i)` with its
initialisation; it returns the views as the loop leaves them, and `tabMatches`. -/
def filterSettings (searchFilter_ : List Nat) (views : List View) : List View × Bool :=
  let st := (List.range' 1 (views.length - 1)).foldl (filterView searchFilter_)
    { views := views, lastHeading := none, tabMatches := searchFilter_.isEmpty }
  (st.views, st.tabMatches)

/-- One round of the outer loop of `ApplySearchFilter`: the tab tagged `GameSettingsSearch` is
passed over; any other tab is filtered, enabled according to `tabMatches`, and `matches`
(here `isMatched`) is updated. -/
def filterTab (searchFilter_ : List Nat) (tab : Tab) (isMatched : Bool) : Tab × Bool :=
  if tab.contents.Tag = searchTabTag then (tab, isMatched)
  else
    let r := tab.contents.onSettingsList (filterSettings searchFilter_)
    ({ contents := r.1, enabled := r.2 }, isMatched || r.2)

/-- The outer loop `for (int t = 0; t < (int)settingTabs.size(); ++t)`. -/
def filterTabs (searchFilter_ : List Nat) : List Tab → Bool → List Tab × Bool
  | [], isMatched => ([], isMatched)
  | tab :: rest, isMatched =>
    let r := filterTab searchFilter_ tab isMatched
    let rs := filterTabs searchFilter_ rest r.2
    (r.1 :: rs.1, rs.2)

/-- `void UITabbedBaseDialogScreen::ApplySearchFilter()`. -/
def ApplySearchFilter (self : UITabbedBaseDialogScreen) : UITabbedBaseDialogScreen :=
  let filterNotice :=
    if self.searchFilter_.isEmpty then Visibility.V_GONE else Visibility.V_VISIBLE
  let r := filterTabs self.searchFilter_ self.tabHolder_ self.searchFilter_.isEmpty
  { self with
    tabHolder_ := r.1
    filterNotice_ := filterNotice
    noSearchResults_ := if r.2 then Visibility.V_GONE else Visibility.V_VISIBLE
    clearSearchChoice_ :=
      if self.searchFilter_.isEmpty then Visibility.V_GONE else Visibility.V_VISIBLE }

/-- `void UITabbedBaseDialogScreen::sendMessage(UIMessage message, const char *value)`. The
call of the base class, `UIBaseDialogScreen::sendMessage`, is the parameter
`baseSendMessage`; a null `value` is `none`. -/
def sendMessage
    (baseSendMessage : UIMessage → Option (List Nat) → UITabbedBaseDialogScreen →
      UITabbedBaseDialogScreen)
    (message : UIMessage) (value : Option (List Nat)) (self : UITabbedBaseDialogScreen) :
    UITabbedBaseDialogScreen :=
  let self := baseSendMessage message value self
  match message with
  | UIMessage.GAMESETTINGS_SEARCH =>
    let filter := value.getD []
    ApplySearchFilter { self with searchFilter_ := filter.map tolower }
  | _ => self

/-! ### Notions used to reason about the loops -/

/-- A view with its visibility reset: two views with the same image differ at most in their
own visibility. -/
def eraseVis (v : View) : View := v.SetVisibility Visibility.V_VISIBLE

/-- The list `cur` holds the views of `orig`, up to their visibility. -/
def SameViews (orig cur : List View) : Prop := cur.map eraseVis = orig.map eraseVis

/-- The pointer `lastHeading` is null or points to a view that cannot be focused. -/
def HeadingInert (orig : List View) (lastHeading : Option Nat) : Prop :=
  ∀ h v, lastHeading = some h → orig[h]? = some v → v.CanBeFocused = false

/-- The value of `match` in the inner loop, for the view `v`. -/
def viewMatches (searchFilter_ : List Nat) (v : View) : Bool :=
  v.CanBeFocused && (stringFind (v.DescribeText.map tolower) searchFilter_).isSome

/-- The visibility that the last statement of the inner loop gives to the view `v`. -/
def filteredVisibility (searchFilter_ : List Nat) (v : View) : Visibility :=
  if searchFilter_.isEmpty || viewMatches searchFilter_ v then Visibility.V_VISIBLE
  else Visibility.V_GONE

/-- The value of `match` in the round of the inner loop for index `i`. -/
def matchAt (searchFilter_ : List Nat) (views : List View) (i : Nat) : Bool :=
  match views[i]? with
  | some v => viewMatches searchFilter_ v
  | none => false

/-- The statement `if (match && lastHeading) lastHeading->SetVisibility(V_VISIBLE)` when
`match` holds. -/
def headingShown (views : List View) (lastHeading : Option Nat) : List View :=
  match lastHeading with
  | some h => setVisibilityAt views h Visibility.V_VISIBLE
  | none => views

/-- The view at index `k` is the one of `orig`, with the visibility the filter gives it. -/
def FilteredAt (searchFilter_ : List Nat) (orig cur : List View) (k : Nat) : Prop :=
  cur[k]? = orig[k]?.map (fun v => v.SetVisibility (filteredVisibility searchFilter_ v))

/-! ### Example screens -/

/-- An item header with the given label: a view that cannot be focused. -/
def exampleHeader (label : List Nat) : View :=
  View.mk false [] false label Visibility.V_VISIBLE []

/-- A setting with the given label: a view that can be focused. -/
def exampleSetting (label : List Nat) : View :=
  View.mk false [] true label Visibility.V_VISIBLE []

/-- The content view that `AddTab` builds: a scroll view with the tab's tag, holding one
linear layout, which holds the views of the tab. -/
def exampleTabContents (tag : List Nat) (views : List View) : View :=
  View.mk true tag false [] Visibility.V_VISIBLE
    [View.mk true [] false [] Visibility.V_VISIBLE views]

/-- A tab tagged `T` with a header `H`, the setting `AB` and the setting `C`. -/
def exampleTab : Tab :=
  { contents := exampleTabContents [84]
      [exampleHeader [72], exampleSetting [65, 66], exampleSetting [67]]
    enabled := true }

/-- A screen with `exampleTab` as its only tab and no filter. -/
def exampleScreen : UITabbedBaseDialogScreen :=
  { tabHolder_ := [exampleTab]
    filterNotice_ := Visibility.V_GONE
    clearSearchChoice_ := Visibility.V_GONE
    noSearchResults_ := Visibility.V_GONE
    searchFilter_ := [] }

/-- A tab tagged `T` whose first view is the setting `b`, followed by a header `h`. -/
def settingFirstTab : Tab :=
  { contents := exampleTabContents [84] [exampleSetting [98], exampleHeader [104]]
    enabled := true }

/-- A screen with `settingFirstTab` as its only tab and the filter `b`. -/
def settingFirstScreen : UITabbedBaseDialogScreen :=
  { tabHolder_ := [settingFirstTab]
    filterNotice_ := Visibility.V_GONE
    clearSearchChoice_ := Visibility.V_GONE
    noSearchResults_ := Visibility.V_GONE
    searchFilter_ := [98] }

end UITabbedBaseDialogScreen

namespace UITabbedBaseDialogScreen
open UI

/-- The view at index `k` is the one of `orig`, made visible. -/
def ShownAt (orig cur : List View) (k : Nat) : Prop :=
  cur[k]? = orig[k]?.map eraseVis

/-- A tab tagged `T` as a search without result leaves it: disabled, with the header `H` still
visible at index 0 and the settings `AB` and `C` gone. -/
def hiddenTab : Tab :=
  { contents := exampleTabContents [84]
      [exampleHeader [72], (exampleSetting [65, 66]).SetVisibility Visibility.V_GONE,
        (exampleSetting [67]).SetVisibility Visibility.V_GONE]
    enabled := false }

/-- A screen as the search for `zz` leaves it: the only tab is `hiddenTab`, and the two notices
and the clear-filter choice are visible. -/
def hiddenScreen : UITabbedBaseDialogScreen :=
  { tabHolder_ := [hiddenTab]
    filterNotice_ := Visibility.V_VISIBLE
    clearSearchChoice_ := Visibility.V_VISIBLE
    noSearchResults_ := Visibility.V_VISIBLE
    searchFilter_ := [122, 122] }

end UITabbedBaseDialogScreen

/-! ## Definitions: `Background.cpp` -/

namespace WaveAnimation

/-- The part of the draw buffer behind `UIContext` that the loop of `WaveAnimation::Draw`
changes: the number of vertices buffered since the last flush, and the number of
`RectVGradient` calls issued. Coordinates and colours are floating-point values and are left
out. -/
structure UIContext where
  vertices : Nat
  rectangles : Nat
  deriving DecidableEq, Repr

/-- `dc.Flush()`: the buffered vertices are drawn and the buffer is empty again. -/
def Flush (dc : UIContext) : UIContext :=
  { dc with vertices := 0 }

/-- `dc.Draw()->RectVGradient(...)`: one more rectangle, which takes `rectVertices` vertices
of the buffer. The function is part of the draw buffer, outside the sources at hand, so the
number of vertices of one rectangle is a parameter. -/
def RectVGradient (rectVertices : Nat) (dc : UIContext) : UIContext :=
  { vertices := dc.vertices + rectVertices, rectangles := dc.rectangles + 1 }

/-- `const int steps = std::max(20, std::min((int)g_display.dp_xres, 500));` where `xres` is
the value of `(int)g_display.dp_xres`. -/
def steps (xres : Int) : Int :=
  max 20 (min xres 500)

/-- The body of the loop of `WaveAnimation::Draw` for the segment `n`: the two waves and their
two antialiasing strips. -/
def drawSegment (rectVertices : Nat) (dc : UIContext) (_n : Nat) : UIContext :=
  RectVGradient rectVertices
    (RectVGradient rectVertices (RectVGradient rectVertices (RectVGradient rectVertices dc)))

/-- `WaveAnimation::Draw` up to the end of its loop: the first `dc.Flush()` and the loop
`for (int n = 0; n < steps; n++)`. -/
def drawWaves (rectVertices : Nat) (xres : Int) (dc : UIContext) : UIContext :=
  (List.range (steps xres).toNat).foldl (drawSegment rectVertices) (Flush dc)

/-- `WaveAnimation::Draw`: `drawWaves` and the closing `dc.Flush()`. -/
def Draw (rectVertices : Nat) (xres : Int) (dc : UIContext) : UIContext :=
  Flush (drawWaves rectVertices xres dc)

end WaveAnimation

/-! ## Theorems: the premultiplied-alpha conversions -/

namespace TextDrawer

theorem wrap32_of_lt {n : Nat} (h : n < 2 ^ 32) : wrap32 n = n :=
  Nat.mod_eq_of_lt h

theorem byte_and_lt (x : Nat) : x &&& 0xFF < 256 :=
  Nat.and_lt_two_pow x (show 255 < 2 ^ 8 by norm_num)

theorem scaled_channel_wrap (c a : Nat) (hc : c < 256) (ha : a < 256) :
    wrap32 (wrap32 (c * a) + 127) / 255 = (c * a + 127) / 255 := by
  have hca : c * a ≤ 255 * 255 := Nat.mul_le_mul (by omega) (by omega)
  rw [wrap32_of_lt (show c * a < 2 ^ 32 by omega), wrap32_of_lt (by omega)]

theorem scaled_channel_lt (c a : Nat) (hc : c < 256) (ha : a < 256) :
    (c * a + 127) / 255 < 256 := by
  have hca : c * a ≤ 255 * 255 := Nat.mul_le_mul (by omega) (by omega)
  omega

theorem shift_byte_wrap (x k : Nat) (hx : x < 256) (hk : k ≤ 24) :
    wrap32 (x <<< k) = x <<< k := by
  apply wrap32_of_lt
  rw [Nat.shiftLeft_eq]
  calc x * 2 ^ k < 256 * 2 ^ k := Nat.mul_lt_mul_of_pos_right hx (by positivity)
    _ ≤ 256 * 2 ^ 24 := Nat.mul_le_mul_left _ (Nat.pow_le_pow_right (by norm_num) hk)
    _ = 2 ^ 32 := by norm_num

/-- C1: for every 32-bit value `v` whose alpha byte `a = (v >> 24) & 0xFF` lies strictly
between 0 and 255, `RGBAToPremul8888 v` is `(a << 24) | (r' << 16) | (g' << 8) | b'`, where
`r'`, `g'`, `b'` are `(c * a + 127) / 255` for the bytes `c` at bits 16..23, 8..15 and 0..7 of
`v`; and `RGBAToPremul8888 0x80804020 = 0x80402010`. -/
theorem RGBAToPremul8888_scales_channels (v : Nat) (_hv : v < 2 ^ 32)
    (hlo : 0 < (v >>> 24) &&& 0xFF) (hhi : (v >>> 24) &&& 0xFF < 255) :
    RGBAToPremul8888 v =
        ((((v >>> 24) &&& 0xFF) <<< 24)
          ||| (((((v >>> 16) &&& 0xFF) * ((v >>> 24) &&& 0xFF) + 127) / 255) <<< 16)
          ||| (((((v >>> 8) &&& 0xFF) * ((v >>> 24) &&& 0xFF) + 127) / 255) <<< 8)
          ||| (((v &&& 0xFF) * ((v >>> 24) &&& 0xFF) + 127) / 255))
      ∧ RGBAToPremul8888 0x80804020 = 0x80402010 := by
  refine ⟨?_, by decide⟩
  have ha := byte_and_lt (v >>> 24)
  have hr := byte_and_lt (v >>> 16)
  have hg := byte_and_lt (v >>> 8)
  have hb := byte_and_lt v
  unfold RGBAToPremul8888
  simp only []
  rw [if_neg (by omega), if_neg (by omega)]
  rw [scaled_channel_wrap _ _ hr ha, scaled_channel_wrap _ _ hg ha,
    scaled_channel_wrap _ _ hb ha]
  rw [shift_byte_wrap _ 24 ha (by omega),
    shift_byte_wrap _ 16 (scaled_channel_lt _ _ hr ha) (by omega),
    shift_byte_wrap _ 8 (scaled_channel_lt _ _ hg ha) (by omega)]

/-- The instance of C1 at `0x40FF8001`, whose alpha byte is `0x40`: the channels `0xFF`,
`0x80`, `0x01` become `0x40`, `0x20`, `0x00`. -/
theorem RGBAToPremul8888_scales_channels_witness :
    RGBAToPremul8888 0x40FF8001 = 0x40402000 :=
  (RGBAToPremul8888_scales_channels 0x40FF8001 (by norm_num) (by decide) (by decide)).1.trans
    (by decide)

/-- C2: for every 32-bit value `v`, `RGBAToPremul8888 v` is `v` itself when the alpha byte
(bits 24..31) is 255, and is 0 when the alpha byte is 0, whatever the colour bytes are;
`RGBAToPremul8888 0xFF112233 = 0xFF112233` and `RGBAToPremul8888 0x00112233 = 0`. -/
theorem RGBAToPremul8888_short_circuits (v : Nat) (_hv : v < 2 ^ 32) :
    ((v >>> 24) &&& 0xFF = 255 → RGBAToPremul8888 v = v)
      ∧ ((v >>> 24) &&& 0xFF = 0 → RGBAToPremul8888 v = 0)
      ∧ RGBAToPremul8888 0xFF112233 = 0xFF112233
      ∧ RGBAToPremul8888 0x00112233 = 0 := by
  refine ⟨?_, ?_, by decide, by decide⟩
  · intro h
    unfold RGBAToPremul8888
    simp only []
    rw [if_pos h]
  · intro h
    unfold RGBAToPremul8888
    simp only []
    rw [if_neg (by omega), if_pos h]

/-- The instances of C2 at `0xFFABCDEF` (opaque) and `0x00ABCDEF` (fully transparent). -/
theorem RGBAToPremul8888_short_circuits_witness :
    RGBAToPremul8888 0xFFABCDEF = 0xFFABCDEF ∧ RGBAToPremul8888 0x00ABCDEF = 0 :=
  ⟨(RGBAToPremul8888_short_circuits 0xFFABCDEF (by norm_num)).1 (by decide),
    (RGBAToPremul8888_short_circuits 0x00ABCDEF (by norm_num)).2.1 (by decide)⟩

/-- C3: for every 8-bit alpha `v`, `AlphaToPremul4444 v` is a 16-bit value whose four 4-bit
channels all equal the top 4 bits of `v`; it equals `(v >> 4) * 0x1111`. -/
theorem AlphaToPremul4444_replicates_top_nibble (v : Nat) (hv : v ≤ 255) :
    AlphaToPremul4444 v = (v >>> 4) * 0x1111
      ∧ AlphaToPremul4444 v < 2 ^ 16
      ∧ (AlphaToPremul4444 v) &&& 0xF = v >>> 4
      ∧ ((AlphaToPremul4444 v) >>> 4) &&& 0xF = v >>> 4
      ∧ ((AlphaToPremul4444 v) >>> 8) &&& 0xF = v >>> 4
      ∧ ((AlphaToPremul4444 v) >>> 12) &&& 0xF = v >>> 4 := by
  interval_cases v <;> decide

/-- The instance of C3 at the alpha `0xAB`. -/
theorem AlphaToPremul4444_replicates_top_nibble_witness :
    AlphaToPremul4444 0xAB = 0xAAAA :=
  (AlphaToPremul4444_replicates_top_nibble 0xAB (by decide)).1.trans (by decide)

/-- C4: for every 8-bit alpha `v`, `AlphaToPremul8888 v` is the 32-bit value whose four bytes
(R, G, B and the alpha in the top byte) all equal `v`; it equals `v * 0x01010101`. -/
theorem AlphaToPremul8888_replicates_byte (v : Nat) (hv : v ≤ 255) :
    AlphaToPremul8888 v = v * 0x01010101
      ∧ AlphaToPremul8888 v < 2 ^ 32
      ∧ (AlphaToPremul8888 v) &&& 0xFF = v
      ∧ ((AlphaToPremul8888 v) >>> 8) &&& 0xFF = v
      ∧ ((AlphaToPremul8888 v) >>> 16) &&& 0xFF = v
      ∧ ((AlphaToPremul8888 v) >>> 24) &&& 0xFF = v := by
  interval_cases v <;> decide

/-- The instance of C4 at the alpha `0xAB`. -/
theorem AlphaToPremul8888_replicates_byte_witness :
    AlphaToPremul8888 0xAB = 0xABABABAB :=
  (AlphaToPremul8888_replicates_byte 0xAB (by decide)).1.trans (by decide)

end TextDrawer

/-! ## Theorems: the cache key and the caches -/

namespace TextDrawer

theorem stringLess_iff_lex (s t : List Nat) :
    stringLess s t = true ↔ List.Lex (· < ·) s t := by
  induction s generalizing t with
  | nil =>
    cases t with
    | nil =>
      simp only [stringLess]
      constructor
      · intro h; cases h
      · intro h; cases h
    | cons b bs =>
      simp only [stringLess, true_iff]
      exact List.Lex.nil
  | cons a as ih =>
    cases t with
    | nil =>
      simp only [stringLess]
      constructor
      · intro h; cases h
      · intro h; cases h
    | cons b bs =>
      simp only [stringLess]
      by_cases hab : a < b
      · simp only [hab, if_true, true_iff]
        exact List.Lex.rel hab
      · by_cases hba : b < a
        · simp only [hab, hba, if_true, if_false]
          constructor
          · intro h; cases h
          · intro h
            cases h with
            | cons _ => omega
            | rel h => exact absurd h hab
        · simp only [hab, hba, if_false]
          have hEq : a = b := by omega
          subst hEq
          rw [ih bs]
          constructor
          · intro h; exact List.Lex.cons h
          · intro h
            cases h with
            | cons h3 => exact h3
            | rel h => exact absurd h hab

theorem stringLess_irrefl (s : List Nat) : stringLess s s = false := by
  induction s with
  | nil => rfl
  | cons a as ih => simp [stringLess, ih]

theorem stringLess_asymm (s t : List Nat) (h : stringLess s t = true) : stringLess t s = false := by
  induction s generalizing t with
  | nil => cases t <;> simp_all [stringLess]
  | cons a as ih =>
    cases t with
    | nil => simp_all [stringLess]
    | cons b bs =>
      simp only [stringLess] at h ⊢
      by_cases hab : a < b
      · have : ¬ b < a := by omega
        simp [this, hab]
      · by_cases hba : b < a
        · simp [hab, hba] at h
        · simp only [hab, hba, if_false] at h ⊢
          exact ih bs h

theorem stringLess_trans (s t u : List Nat) (h1 : stringLess s t = true)
    (h2 : stringLess t u = true) : stringLess s u = true := by
  induction s generalizing t u with
  | nil =>
    cases t with
    | nil => simp [stringLess] at h1
    | cons b bs =>
      cases u with
      | nil => simp [stringLess] at h2
      | cons c cs => simp [stringLess]
  | cons a as ih =>
    cases t with
    | nil => simp [stringLess] at h1
    | cons b bs =>
      cases u with
      | nil => simp [stringLess] at h2
      | cons c cs =>
        simp only [stringLess] at h1 h2 ⊢
        by_cases hab : a < b
        · by_cases hbc : b < c
          · have : a < c := by omega
            simp [this]
          · by_cases hcb : c < b
            · simp [hbc, hcb] at h2
            · have : a < c := by omega
              simp [this]
        · by_cases hba : b < a
          · simp [hab, hba] at h1
          · simp only [hab, hba, if_false] at h1
            have hab' : a = b := by omega
            subst hab'
            by_cases hbc : a < c
            · simp [hbc]
            · by_cases hcb : c < a
              · simp [hbc, hcb] at h2
              · simp only [hbc, hcb, if_false] at h2 ⊢
                exact ih bs cs h1 h2

theorem stringLess_connected (s t : List Nat) (h1 : stringLess s t = false)
    (h2 : stringLess t s = false) : s = t := by
  induction s generalizing t with
  | nil => cases t with
    | nil => rfl
    | cons b bs => simp [stringLess] at h1
  | cons a as ih =>
    cases t with
    | nil => simp [stringLess] at h2
    | cons b bs =>
      simp only [stringLess] at h1 h2
      by_cases hab : a < b
      · simp [hab] at h1
      · by_cases hba : b < a
        · simp [hba] at h2
        · simp only [hab, hba, if_false] at h1 h2
          have : a = b := by omega
          rw [this, ih bs h1 h2]

theorem operatorLt_iff (k1 k2 : CacheKey) :
    k1.operatorLt k2 = true ↔
      k1.fontHash < k2.fontHash
        ∨ (k1.fontHash = k2.fontHash ∧ stringLess k1.text k2.text = true) := by
  unfold CacheKey.operatorLt
  by_cases h1 : k1.fontHash < k2.fontHash
  · simp [h1]
  · by_cases h2 : k1.fontHash > k2.fontHash
    · have h3 : k1.fontHash ≠ k2.fontHash := by omega
      simp [h1, h2, h3]
    · have h3 : k1.fontHash = k2.fontHash := by omega
      simp [h1, h2, h3]

theorem operatorLt_irrefl (k : CacheKey) : k.operatorLt k = false := by
  have h := operatorLt_iff k k
  cases hk : k.operatorLt k with
  | false => rfl
  | true =>
    rw [hk] at h
    have h2 := h.mp rfl
    rcases h2 with h2 | ⟨_, h2⟩
    · omega
    · rw [stringLess_irrefl] at h2; cases h2

theorem operatorLt_asymm (k1 k2 : CacheKey) (h : k1.operatorLt k2 = true) :
    k2.operatorLt k1 = false := by
  cases hk : k2.operatorLt k1 with
  | false => rfl
  | true =>
    rcases (operatorLt_iff k1 k2).mp h with a | ⟨a1, a2⟩
    · rcases (operatorLt_iff k2 k1).mp hk with b | ⟨b1, _⟩ <;> omega
    · rcases (operatorLt_iff k2 k1).mp hk with b | ⟨_, b2⟩
      · omega
      · rw [stringLess_asymm _ _ a2] at b2; cases b2

theorem operatorLt_trans (k1 k2 k3 : CacheKey) (h12 : k1.operatorLt k2 = true)
    (h23 : k2.operatorLt k3 = true) : k1.operatorLt k3 = true := by
  rw [operatorLt_iff] at h12 h23 ⊢
  rcases h12 with a | ⟨a1, a2⟩
  · rcases h23 with b | ⟨b1, _⟩
    · left; omega
    · left; omega
  · rcases h23 with b | ⟨b1, b2⟩
    · left; omega
    · right; exact ⟨a1.trans b1, stringLess_trans _ _ _ a2 b2⟩

theorem sameSlot_iff (k1 k2 : CacheKey) :
    k1.sameSlot k2 = true ↔ k1.fontHash = k2.fontHash ∧ k1.text = k2.text := by
  unfold CacheKey.sameSlot
  simp only [Bool.and_eq_true, Bool.not_eq_true']
  constructor
  · rintro ⟨h1, h2⟩
    have n1 : ¬ (k1.fontHash < k2.fontHash ∨
        (k1.fontHash = k2.fontHash ∧ stringLess k1.text k2.text = true)) := by
      rw [← operatorLt_iff, h1]; simp
    have n2 : ¬ (k2.fontHash < k1.fontHash ∨
        (k2.fontHash = k1.fontHash ∧ stringLess k2.text k1.text = true)) := by
      rw [← operatorLt_iff, h2]; simp
    have hEq : k1.fontHash = k2.fontHash := by
      have a : ¬ k1.fontHash < k2.fontHash := fun h => n1 (Or.inl h)
      have b : ¬ k2.fontHash < k1.fontHash := fun h => n2 (Or.inl h)
      omega
    refine ⟨hEq, stringLess_connected _ _ ?_ ?_⟩
    · cases hs : stringLess k1.text k2.text with
      | false => rfl
      | true => exact absurd (Or.inr ⟨hEq, hs⟩) n1
    · cases hs : stringLess k2.text k1.text with
      | false => rfl
      | true => exact absurd (Or.inr ⟨hEq.symm, hs⟩) n2
  · rintro ⟨h1, h2⟩
    have hk : k1 = k2 := by
      cases k1; cases k2; simp_all
    subst hk
    exact ⟨operatorLt_irrefl k1, operatorLt_irrefl k1⟩

/-- C5: `CacheKey::operator <` is the lexicographic order on (fontHash, text): `k1 < k2` holds
exactly when `k1.fontHash < k2.fontHash`, or the font hashes are equal and `k1.text` is
lexicographically less than `k2.text`; and the relation is a strict order: irreflexive,
asymmetric and transitive. -/
theorem CacheKey_operatorLt_lexicographic_strict_order :
    (∀ k1 k2 : CacheKey, k1.operatorLt k2 = true ↔
        k1.fontHash < k2.fontHash
          ∨ (k1.fontHash = k2.fontHash ∧ List.Lex (· < ·) k1.text k2.text))
      ∧ (∀ k : CacheKey, k.operatorLt k = false)
      ∧ (∀ k1 k2 : CacheKey, k1.operatorLt k2 = true → k2.operatorLt k1 = false)
      ∧ (∀ k1 k2 k3 : CacheKey, k1.operatorLt k2 = true → k2.operatorLt k3 = true →
          k1.operatorLt k3 = true) := by
  refine ⟨?_, operatorLt_irrefl, operatorLt_asymm, operatorLt_trans⟩
  intro k1 k2
  rw [operatorLt_iff, stringLess_iff_lex]

/-- An instance of C5: the key (3, `a`) is less than (7, `ab`), which is less than (7, `b`);
so (3, `a`) is less than (7, `b`), and (7, `b`) is not less than (7, `ab`). -/
theorem CacheKey_operatorLt_lexicographic_strict_order_witness :
    CacheKey.operatorLt { text := [97], fontHash := 3 } { text := [98], fontHash := 7 } = true
      ∧ CacheKey.operatorLt { text := [98], fontHash := 7 } { text := [97, 98], fontHash := 7 }
          = false :=
  ⟨CacheKey_operatorLt_lexicographic_strict_order.2.2.2
      { text := [97], fontHash := 3 } { text := [97, 98], fontHash := 7 }
      { text := [98], fontHash := 7 } (by decide) (by decide),
    CacheKey_operatorLt_lexicographic_strict_order.2.2.1
      { text := [97, 98], fontHash := 7 } { text := [98], fontHash := 7 } (by decide)⟩

/-- C6: two cache keys address the same slot of the cache maps (neither compares less than the
other) exactly when their font hashes are equal and their texts are equal; hence a map with
unique keys holds at most one entry per (fontHash, text) pair, and two keys with the same font
hash but different text never address the same slot. -/
theorem CacheKey_same_slot_iff_same_pair :
    (∀ k1 k2 : CacheKey, k1.sameSlot k2 = true ↔
        k1.fontHash = k2.fontHash ∧ k1.text = k2.text)
      ∧ (∀ keys : List CacheKey, UniqueKeys keys →
          ∀ (fontHash : Nat) (text : List Nat),
            (keys.filter (fun k => decide (k.fontHash = fontHash ∧ k.text = text))).length ≤ 1)
      ∧ (∀ k1 k2 : CacheKey, k1.fontHash = k2.fontHash → k1.text ≠ k2.text →
          k1.sameSlot k2 = false) := by
  refine ⟨sameSlot_iff, ?_, ?_⟩
  · intro keys hp fontHash text
    unfold UniqueKeys at hp
    induction keys with
    | nil => simp
    | cons k ks ih =>
      rw [List.pairwise_cons] at hp
      by_cases hk : k.fontHash = fontHash ∧ k.text = text
      · have hnone :
            ks.filter (fun k => decide (k.fontHash = fontHash ∧ k.text = text)) = [] := by
          rw [List.filter_eq_nil_iff]
          intro b hb hdec
          have hb2 : b.fontHash = fontHash ∧ b.text = text := by simpa using hdec
          have hs : k.sameSlot b = true :=
            (sameSlot_iff k b).mpr ⟨hk.1.trans hb2.1.symm, hk.2.trans hb2.2.symm⟩
          rw [hp.1 b hb] at hs
          cases hs
        rw [List.filter_cons_of_pos (by simpa using hk), hnone]
        simp
      · rw [List.filter_cons_of_neg (by simpa using hk)]
        exact ih hp.2
  · intro k1 k2 hf ht
    cases hs : k1.sameSlot k2 with
    | false => rfl
    | true => exact absurd ((sameSlot_iff k1 k2).mp hs).2 ht

/-- An instance of C6: the keys (7, `a`) and (7, `b`) are distinct entries, and a map holding
the two has at most one entry for (7, `a`). -/
theorem CacheKey_same_slot_iff_same_pair_witness :
    CacheKey.sameSlot { text := [97], fontHash := 7 } { text := [98], fontHash := 7 } = false
      ∧ (exampleKeys.filter
          (fun k => decide (k.fontHash = 7 ∧ k.text = [97]))).length ≤ 1 :=
  ⟨CacheKey_same_slot_iff_same_pair.2.2
      { text := [97], fontHash := 7 } { text := [98], fontHash := 7 } rfl (by decide),
    CacheKey_same_slot_iff_same_pair.2.1 exampleKeys
      (by unfold UniqueKeys exampleKeys; simp [CacheKey.sameSlot, CacheKey.operatorLt,
        stringLess]) 7 [97]⟩

/-- C8: every call of `OncePerFrame` advances the frame counter by exactly one, and then
removes from the string cache and from the measure cache exactly the entries whose
`lastUsedFrame` is older than the eviction threshold relative to the new frame counter; every
other entry stays in its cache, unchanged and in its place. -/
theorem OncePerFrame_advances_and_evicts (threshold : Int) (s : TextDrawer) :
    (OncePerFrame threshold s).frameCount_ = s.frameCount_ + 1
      ∧ (∀ e : CacheKey × TextStringEntry, e ∈ (OncePerFrame threshold s).cache_ ↔
          e ∈ s.cache_
            ∧ ¬ ((OncePerFrame threshold s).frameCount_ - e.2.lastUsedFrame > threshold))
      ∧ (∀ e : CacheKey × TextMeasureEntry, e ∈ (OncePerFrame threshold s).sizeCache_ ↔
          e ∈ s.sizeCache_
            ∧ ¬ ((OncePerFrame threshold s).frameCount_ - e.2.lastUsedFrame > threshold))
      ∧ (OncePerFrame threshold s).cache_.Sublist s.cache_
      ∧ (OncePerFrame threshold s).sizeCache_.Sublist s.sizeCache_
      ∧ (OncePerFrame threshold s).fontHash_ = s.fontHash_ := by
  refine ⟨rfl, ?_, ?_, List.filter_sublist _, List.filter_sublist _, rfl⟩
  · intro e
    simp [OncePerFrame, List.mem_filter]
  · intro e
    simp [OncePerFrame, List.mem_filter]

end TextDrawer

/-! ## Theorems: the settings search -/

namespace UITabbedBaseDialogScreen
open UI

theorem canBeFocused_of_eraseVis {a b : View} (h : eraseVis a = eraseVis b) :
    a.CanBeFocused = b.CanBeFocused := by
  cases a; cases b
  simp only [eraseVis, View.SetVisibility, View.mk.injEq] at h
  simp [View.CanBeFocused, h.2.2.1]

theorem describeText_of_eraseVis {a b : View} (h : eraseVis a = eraseVis b) :
    a.DescribeText = b.DescribeText := by
  cases a; cases b
  simp only [eraseVis, View.SetVisibility, View.mk.injEq] at h
  simp [View.DescribeText, h.2.2.2.1]

theorem isViewGroup_of_eraseVis {a b : View} (h : eraseVis a = eraseVis b) :
    a.IsViewGroup = b.IsViewGroup := by
  cases a; cases b
  simp only [eraseVis, View.SetVisibility, View.mk.injEq] at h
  simp [View.IsViewGroup, h.1]

theorem setVisibility_of_eraseVis {a b : View} (h : eraseVis a = eraseVis b)
    (x : Visibility) : a.SetVisibility x = b.SetVisibility x := by
  cases a; cases b
  simp only [eraseVis, View.SetVisibility, View.mk.injEq] at h
  simp [View.SetVisibility, h]

theorem eraseVis_setVisibility (v : View) (x : Visibility) :
    eraseVis (v.SetVisibility x) = eraseVis v := by
  cases v; rfl

theorem getVisibility_setVisibility (v : View) (x : Visibility) :
    (v.SetVisibility x).GetVisibility = x := by
  cases v; rfl

theorem getElem?_setVisibilityAt (l : List View) (i j : Nat) (x : Visibility) :
    (setVisibilityAt l i x)[j]? =
      if i = j then l[j]?.map (fun v => v.SetVisibility x) else l[j]? := by
  unfold setVisibilityAt
  cases hi : l[i]? with
  | none =>
    by_cases hij : i = j
    · subst hij; simp [hi]
    · simp [hij]
  | some v =>
    have hlt : i < l.length := by
      rcases Nat.lt_or_ge i l.length with h | h
      · exact h
      · rw [List.getElem?_eq_none h] at hi; cases hi
    simp only [List.getElem?_set]
    by_cases hij : i = j
    · subst hij; simp [hi, hlt]
    · simp [hij]

theorem sameViews_setVisibilityAt (orig l : List View) (i : Nat) (x : Visibility)
    (h : SameViews orig l) : SameViews orig (setVisibilityAt l i x) := by
  unfold SameViews at h ⊢
  rw [← h]
  apply List.ext_getElem?
  intro j
  rw [List.getElem?_map, List.getElem?_map, getElem?_setVisibilityAt]
  by_cases hij : i = j
  · simp only [hij, if_true]
    cases l[j]? with
    | none => rfl
    | some v => simp [eraseVis_setVisibility]
  · simp [hij]

theorem sameViews_getElem? {orig cur : List View} (h : SameViews orig cur) (j : Nat) :
    cur[j]?.map eraseVis = orig[j]?.map eraseVis := by
  have := congrArg (fun l => l[j]?) h
  simpa [List.getElem?_map] using this

theorem sameViews_length {orig cur : List View} (h : SameViews orig cur) :
    cur.length = orig.length := by
  have := congrArg List.length h
  simpa using this

theorem sameViews_some {orig cur : List View} (h : SameViews orig cur) {j : Nat} {c : View}
    (hc : cur[j]? = some c) : ∃ o, orig[j]? = some o ∧ eraseVis c = eraseVis o := by
  have hj := sameViews_getElem? h j
  rw [hc] at hj
  cases ho : orig[j]? with
  | none => rw [ho] at hj; cases hj
  | some o =>
    rw [ho] at hj
    exact ⟨o, rfl, by simpa using hj⟩

theorem sameViews_some_orig {orig cur : List View} (h : SameViews orig cur) {j : Nat} {o : View}
    (ho : orig[j]? = some o) : ∃ c, cur[j]? = some c ∧ eraseVis c = eraseVis o := by
  have hj := sameViews_getElem? h j
  rw [ho] at hj
  cases hc : cur[j]? with
  | none => rw [hc] at hj; cases hj
  | some c =>
    rw [hc] at hj
    exact ⟨c, rfl, by simpa using hj⟩

theorem viewMatches_of_eraseVis (F : List Nat) {a b : View} (h : eraseVis a = eraseVis b) :
    viewMatches F a = viewMatches F b := by
  unfold viewMatches
  rw [canBeFocused_of_eraseVis h, describeText_of_eraseVis h]


theorem filterView_none (F : List Nat) (st : FilterLoop) (i : Nat) (h : st.views[i]? = none) :
    filterView F st i = st := by
  unfold filterView
  rw [h]

theorem filterView_some (F : List Nat) (st : FilterLoop) (i : Nat) (v : View)
    (h : st.views[i]? = some v) :
    filterView F st i =
      { views := setVisibilityAt
          (if viewMatches F v then headingShown st.views st.lastHeading else st.views)
          i (filteredVisibility F v)
        lastHeading := if v.CanBeFocused then st.lastHeading else some i
        tabMatches := st.tabMatches || viewMatches F v } := by
  unfold filterView
  rw [h]
  simp only [viewMatches, filteredVisibility, headingShown]
  rcases Bool.eq_false_or_eq_true v.CanBeFocused with hc | hc <;>
    rcases Bool.eq_false_or_eq_true (stringFind (v.DescribeText.map tolower) F).isSome
      with hm | hm <;>
    rcases Option.eq_none_or_eq_some st.lastHeading with hl | ⟨h0, hl⟩ <;>
    simp [hc, hm, hl]

theorem sameViews_headingShown (orig l : List View) (lh : Option Nat) (h : SameViews orig l) :
    SameViews orig (headingShown l lh) := by
  cases lh with
  | none => exact h
  | some k => exact sameViews_setVisibilityAt orig l k _ h

theorem filterView_sameViews (F : List Nat) (orig : List View) (st : FilterLoop) (i : Nat)
    (hs : SameViews orig st.views) : SameViews orig (filterView F st i).views := by
  cases hv : st.views[i]? with
  | none => rw [filterView_none F st i hv]; exact hs
  | some v =>
    rw [filterView_some F st i v hv]
    apply sameViews_setVisibilityAt
    split
    · exact sameViews_headingShown orig _ _ hs
    · exact hs

theorem filterView_headingInert (F : List Nat) (orig : List View) (st : FilterLoop) (i : Nat)
    (hs : SameViews orig st.views) (hh : HeadingInert orig st.lastHeading) :
    HeadingInert orig (filterView F st i).lastHeading := by
  cases hv : st.views[i]? with
  | none => rw [filterView_none F st i hv]; exact hh
  | some v =>
    rw [filterView_some F st i v hv]
    obtain ⟨o, ho, hvo⟩ := sameViews_some hs hv
    cases hc : v.CanBeFocused with
    | true => simpa using hh
    | false =>
      intro h w hh1 hw
      simp only [Bool.false_eq_true, if_false, Option.some.injEq] at hh1
      subst hh1
      rw [ho] at hw
      cases hw
      rw [← canBeFocused_of_eraseVis hvo]
      exact hc

theorem filterView_tabMatches (F : List Nat) (orig : List View) (st : FilterLoop) (i : Nat)
    (hs : SameViews orig st.views) :
    (filterView F st i).tabMatches = (st.tabMatches || matchAt F orig i) := by
  cases hv : st.views[i]? with
  | none =>
    rw [filterView_none F st i hv]
    have hj := sameViews_getElem? hs i
    rw [hv] at hj
    cases ho : orig[i]? with
    | none => simp [matchAt, ho]
    | some o => rw [ho] at hj; cases hj
  | some v =>
    rw [filterView_some F st i v hv]
    obtain ⟨o, ho, hvo⟩ := sameViews_some hs hv
    simp only [matchAt, ho]
    rw [viewMatches_of_eraseVis F hvo]

theorem filteredVisibility_of_eraseVis (F : List Nat) {a b : View} (h : eraseVis a = eraseVis b) :
    filteredVisibility F a = filteredVisibility F b := by
  unfold filteredVisibility
  rw [viewMatches_of_eraseVis F h]

theorem headingShown_getElem?_focusable (orig l : List View) (lh : Option Nat)
    (hh : HeadingInert orig lh) (k : Nat) (o : View) (ho : orig[k]? = some o)
    (hfoc : o.CanBeFocused = true) : (headingShown l lh)[k]? = l[k]? := by
  cases lh with
  | none => rfl
  | some h =>
    simp only [headingShown]
    rw [getElem?_setVisibilityAt]
    by_cases hk : h = k
    · subst hk
      have := hh h o rfl ho
      rw [hfoc] at this
      cases this
    · simp [hk]

theorem filterView_filteredAt (F : List Nat) (orig : List View) (st : FilterLoop) (i k : Nat)
    (hs : SameViews orig st.views) (hh : HeadingInert orig st.lastHeading)
    (o : View) (ho : orig[k]? = some o) (hfoc : o.CanBeFocused = true)
    (hk : k = i ∨ FilteredAt F orig st.views k) :
    FilteredAt F orig (filterView F st i).views k := by
  cases hv : st.views[i]? with
  | none =>
    rw [filterView_none F st i hv]
    rcases hk with hk | hk
    · subst hk
      obtain ⟨c, hc, _⟩ := sameViews_some_orig hs ho
      rw [hv] at hc
      cases hc
    · exact hk
  | some v =>
    rw [filterView_some F st i v hv]
    obtain ⟨oi, hoi, hvoi⟩ := sameViews_some hs hv
    have hbase : (if viewMatches F v then headingShown st.views st.lastHeading else st.views)[k]?
        = st.views[k]? := by
      split
      · exact headingShown_getElem?_focusable orig _ _ hh k o ho hfoc
      · rfl
    unfold FilteredAt
    simp only []
    rw [getElem?_setVisibilityAt, hbase]
    by_cases hik : i = k
    · subst hik
      rw [hoi] at ho
      cases ho
      simp only [if_true, hv, hoi, Option.map_some']
      rw [setVisibility_of_eraseVis hvoi, filteredVisibility_of_eraseVis F hvoi]
    · rcases hk with hk | hk
      · exact absurd hk.symm hik
      · simp only [hik, if_false]
        exact hk


theorem foldl_filterView_inv (F : List Nat) (orig : List View) (js : List Nat) (st : FilterLoop)
    (hs : SameViews orig st.views) (hh : HeadingInert orig st.lastHeading) :
    SameViews orig (js.foldl (filterView F) st).views
      ∧ (js.foldl (filterView F) st).tabMatches = (st.tabMatches || js.any (matchAt F orig))
      ∧ ∀ k o, orig[k]? = some o → o.CanBeFocused = true →
          (k ∈ js ∨ FilteredAt F orig st.views k) →
          FilteredAt F orig (js.foldl (filterView F) st).views k := by
  induction js generalizing st with
  | nil =>
    refine ⟨hs, by simp, ?_⟩
    intro k o _ _ hk
    rcases hk with hk | hk
    · cases hk
    · exact hk
  | cons j js ih =>
    have hs1 := filterView_sameViews F orig st j hs
    have hh1 := filterView_headingInert F orig st j hs hh
    obtain ⟨a, b, c⟩ := ih (filterView F st j) hs1 hh1
    refine ⟨a, ?_, ?_⟩
    · rw [List.foldl_cons, b, filterView_tabMatches F orig st j hs, List.any_cons, Bool.or_assoc]
    · intro k o ho hfoc hk
      rw [List.foldl_cons]
      apply c k o ho hfoc
      rcases hk with hk | hk
      · rcases List.mem_cons.mp hk with hkj | hkjs
        · right
          exact filterView_filteredAt F orig st j k hs hh o ho hfoc (Or.inl hkj)
        · left; exact hkjs
      · right
        exact filterView_filteredAt F orig st j k hs hh o ho hfoc (Or.inr hk)

theorem sameViews_refl (l : List View) : SameViews l l := rfl

theorem filterSettings_sameViews (F : List Nat) (views : List View) :
    SameViews views (filterSettings F views).1 := by
  unfold filterSettings
  exact (foldl_filterView_inv F views _ _ (sameViews_refl views)
    (by intro h v hh; cases hh)).1

theorem filterSettings_focusable (F : List Nat) (views : List View) (k : Nat) (o : View)
    (hk : 1 ≤ k) (ho : views[k]? = some o) (hfoc : o.CanBeFocused = true) :
    (filterSettings F views).1[k]? = some (o.SetVisibility (filteredVisibility F o)) := by
  have hlt : k < views.length := by
    rcases Nat.lt_or_ge k views.length with h | h
    · exact h
    · rw [List.getElem?_eq_none h] at ho; cases ho
  have hmem : k ∈ List.range' 1 (views.length - 1) := by
    rw [List.mem_range'_1]
    omega
  have h := (foldl_filterView_inv F views (List.range' 1 (views.length - 1))
    { views := views, lastHeading := none, tabMatches := F.isEmpty } (sameViews_refl views)
    (by intro h v hh; cases hh)).2.2 k o ho hfoc (Or.inl hmem)
  unfold FilteredAt at h
  rw [ho] at h
  exact h

theorem filterSettings_tabMatches (F : List Nat) (views : List View) :
    (filterSettings F views).2 = true ↔
      F = [] ∨ ∃ k o, 1 ≤ k ∧ views[k]? = some o ∧ viewMatches F o = true := by
  have h := (foldl_filterView_inv F views (List.range' 1 (views.length - 1))
    { views := views, lastHeading := none, tabMatches := F.isEmpty } (sameViews_refl views)
    (by intro h v hh; cases hh)).2.1
  unfold filterSettings
  simp only []
  rw [h]
  simp only [Bool.or_eq_true, List.isEmpty_iff, List.any_eq_true, List.mem_range'_1]
  constructor
  · rintro (h1 | ⟨k, ⟨hk1, hk2⟩, hm⟩)
    · exact Or.inl h1
    · right
      unfold matchAt at hm
      cases ho : views[k]? with
      | none => rw [ho] at hm; cases hm
      | some o =>
        rw [ho] at hm
        exact ⟨k, o, hk1, ho, hm⟩
  · rintro (h1 | ⟨k, o, hk1, ho, hm⟩)
    · exact Or.inl h1
    · right
      have hlt : k < views.length := by
        rcases Nat.lt_or_ge k views.length with h | h
        · exact h
        · rw [List.getElem?_eq_none h] at ho; cases ho
      refine ⟨k, ⟨hk1, by omega⟩, ?_⟩
      simp [matchAt, ho, hm]

theorem findFrom_isSome (needle hay : List Nat) (pos : Nat) :
    (findFrom needle hay pos).isSome = true ↔ needle <:+: hay := by
  induction hay generalizing pos with
  | nil =>
    simp only [findFrom]
    by_cases h : needle.isPrefixOf [] = true
    · simp only [h, if_true, Option.isSome_some, true_iff]
      rw [List.isPrefixOf_iff_prefix] at h
      exact h.isInfix
    · simp only [h]
      simp only [Bool.false_eq_true, if_false, Option.isSome_none, false_iff]
      intro hin
      apply h
      rw [List.isPrefixOf_iff_prefix]
      have : needle = [] := List.eq_nil_of_infix_nil hin
      rw [this]
  | cons c cs ih =>
    simp only [findFrom]
    rw [List.infix_cons_iff]
    by_cases h : needle.isPrefixOf (c :: cs) = true
    · simp only [h, if_true, Option.isSome_some, true_iff]
      left
      exact List.isPrefixOf_iff_prefix.mp h
    · simp only [h]
      simp only [Bool.false_eq_true, if_false]
      rw [ih]
      constructor
      · intro hin; exact Or.inr hin
      · rintro (hp | hin)
        · exact absurd (List.isPrefixOf_iff_prefix.mpr hp) h
        · exact hin

theorem stringFind_isSome (self str : List Nat) :
    (stringFind self str).isSome = true ↔ str <:+: self :=
  findFrom_isSome str self 0


theorem onSettingsList_isViewGroup {β : Type} (body : List View → List View × β) (v : View) :
    (v.onSettingsList body).1.IsViewGroup = v.IsViewGroup := by
  cases v with
  | mk g t c d vis subs =>
    match subs with
    | [] => rfl
    | [child] =>
      simp only [View.onSettingsList]
      split <;> rfl
    | _ :: _ :: _ => rfl

theorem onSettingsList_tag {β : Type} (body : List View → List View × β) (v : View) :
    (v.onSettingsList body).1.Tag = v.Tag := by
  cases v with
  | mk g t c d vis subs =>
    match subs with
    | [] => rfl
    | [child] =>
      simp only [View.onSettingsList]
      split <;> rfl
    | _ :: _ :: _ => rfl

theorem onSettingsList_snd {β : Type} (body : List View → List View × β) :
    ∀ v : View, (v.onSettingsList body).2 = (body v.settingsList).2
  | .mk g t c d vis [] => rfl
  | .mk g t c d vis [child] => by
    simp only [View.onSettingsList, View.settingsList]
    by_cases h : child.IsViewGroup = true
    · simp only [h, if_true]
      exact onSettingsList_snd body child
    · simp only [h]
      rfl
  | .mk g t c d vis (_ :: _ :: _) => rfl

theorem onSettingsList_settingsList {β : Type} (body : List View → List View × β)
    (hbody : ∀ l, SameViews l (body l).1) :
    ∀ v : View, (v.onSettingsList body).1.settingsList = (body v.settingsList).1
  | .mk g t c d vis [] => by
    have h := sameViews_length (hbody [])
    simp only [View.onSettingsList, View.settingsList]
    have h2 : (body []).1 = [] := List.length_eq_zero.mp h
    rw [h2]
    rfl
  | .mk g t c d vis [child] => by
    simp only [View.onSettingsList, View.settingsList]
    by_cases h : child.IsViewGroup = true
    · simp only [h, if_true]
      simp only [View.settingsList, onSettingsList_isViewGroup, h, if_true]
      exact onSettingsList_settingsList body hbody child
    · simp only [h]
      simp only [Bool.false_eq_true, if_false]
      have hl := sameViews_length (hbody [child])
      obtain ⟨c', hc'⟩ := List.length_eq_one.mp hl
      have hel := sameViews_getElem? (hbody [child]) 0
      rw [hc'] at hel ⊢
      simp only [List.getElem?_cons_zero, Option.map_some', Option.some.injEq] at hel
      have hg := isViewGroup_of_eraseVis hel
      simp only [View.settingsList, hg, h]
      rfl
  | .mk g t c d vis (a :: b :: l) => by
    simp only [View.onSettingsList, View.settingsList]
    have hl := sameViews_length (hbody (a :: b :: l))
    match hr : (body (a :: b :: l)).1 with
    | [] => rw [hr] at hl; simp at hl
    | [x] => rw [hr] at hl; simp at hl
    | x :: y :: r => rfl

theorem filterTab_fst (F : List Nat) (tab : Tab) (m : Bool) :
    (filterTab F tab m).1 = (filterTab F tab false).1 := by
  unfold filterTab
  split <;> rfl

theorem filterTab_snd (F : List Nat) (tab : Tab) (m : Bool) :
    (filterTab F tab m).2 =
      (m || (decide (tab.contents.Tag ≠ searchTabTag)
        && (filterSettings F tab.contents.settingsList).2)) := by
  unfold filterTab
  by_cases h : tab.contents.Tag = searchTabTag
  · simp [h]
  · simp [h, onSettingsList_snd]

theorem filterTabs_fst (F : List Nat) (tabs : List Tab) (m : Bool) :
    (filterTabs F tabs m).1 = tabs.map (fun tab => (filterTab F tab false).1) := by
  induction tabs generalizing m with
  | nil => rfl
  | cons tab rest ih =>
    simp only [filterTabs, List.map_cons]
    rw [ih, filterTab_fst]

theorem filterTabs_snd (F : List Nat) (tabs : List Tab) (m : Bool) :
    (filterTabs F tabs m).2 =
      (m || tabs.any (fun tab => decide (tab.contents.Tag ≠ searchTabTag)
        && (filterSettings F tab.contents.settingsList).2)) := by
  induction tabs generalizing m with
  | nil => simp [filterTabs]
  | cons tab rest ih =>
    simp only [filterTabs, List.any_cons]
    rw [ih, filterTab_snd, Bool.or_assoc]


theorem viewMatches_iff (F : List Nat) (v : View) :
    viewMatches F v = true ↔
      v.CanBeFocused = true ∧ F <:+: v.DescribeText.map tolower := by
  unfold viewMatches
  rw [Bool.and_eq_true, stringFind_isSome]

theorem filterTab_of_not_search (F : List Nat) (tab : Tab) (m : Bool)
    (h : tab.contents.Tag ≠ searchTabTag) :
    (filterTab F tab m).1 =
      { contents := (tab.contents.onSettingsList (filterSettings F)).1
        enabled := (filterSettings F tab.contents.settingsList).2 } := by
  unfold filterTab
  rw [if_neg h]
  simp only []
  rw [onSettingsList_snd]

theorem applySearchFilter_tabs (s : UITabbedBaseDialogScreen) :
    (ApplySearchFilter s).tabHolder_ =
      s.tabHolder_.map (fun tab => (filterTab s.searchFilter_ tab false).1) := by
  unfold ApplySearchFilter
  simp only []
  rw [filterTabs_fst]

theorem applySearchFilter_noSearchResults (s : UITabbedBaseDialogScreen) :
    (ApplySearchFilter s).noSearchResults_ =
      if (s.searchFilter_.isEmpty || s.tabHolder_.any (fun tab =>
          decide (tab.contents.Tag ≠ searchTabTag)
            && (filterSettings s.searchFilter_ tab.contents.settingsList).2)) = true
      then Visibility.V_GONE else Visibility.V_VISIBLE := by
  unfold ApplySearchFilter
  simp only []
  rw [filterTabs_snd]

theorem applySearchFilter_matches_iff (s : UITabbedBaseDialogScreen) :
    (s.searchFilter_.isEmpty || s.tabHolder_.any (fun tab =>
        decide (tab.contents.Tag ≠ searchTabTag)
          && (filterSettings s.searchFilter_ tab.contents.settingsList).2)) = true ↔
      s.searchFilter_ = [] ∨ ∃ tab ∈ s.tabHolder_, tab.contents.Tag ≠ searchTabTag ∧
        ∃ i v, 1 ≤ i ∧ tab.contents.settingsList[i]? = some v ∧ v.CanBeFocused = true
          ∧ s.searchFilter_ <:+: v.DescribeText.map tolower := by
  simp only [Bool.or_eq_true, List.isEmpty_iff, List.any_eq_true, Bool.and_eq_true,
    decide_eq_true_eq]
  constructor
  · rintro (h | ⟨tab, hmem, htag, hm⟩)
    · exact Or.inl h
    · rcases (filterSettings_tabMatches _ _).mp hm with h | ⟨i, v, hi, hv, hvm⟩
      · exact Or.inl h
      · right
        exact ⟨tab, hmem, htag, i, v, hi, hv, (viewMatches_iff _ _).mp hvm⟩
  · rintro (h | ⟨tab, hmem, htag, i, v, hi, hv, hfoc, hin⟩)
    · exact Or.inl h
    · right
      refine ⟨tab, hmem, htag, ?_⟩
      exact (filterSettings_tabMatches _ _).mpr
        (Or.inr ⟨i, v, hi, hv, (viewMatches_iff _ _).mpr ⟨hfoc, hin⟩⟩)

/-- C9: settings search is a case-insensitive substring filter. After
`sendMessage(GAMESETTINGS_SEARCH, value)` with a non-empty `value`, for every tab other than
the search tab and every focusable view `v` at an index `i >= 1` of that tab's settings list, the
view at that place is still `v`, now visible if and only if the lower-cased `DescribeText` of `v`
contains the lower-cased `value` as a substring, and gone otherwise. -/
theorem sendMessage_search_filters_focusable_views
    (baseSendMessage : UIMessage → Option (List Nat) → UITabbedBaseDialogScreen →
      UITabbedBaseDialogScreen) (s : UITabbedBaseDialogScreen)
    (value : List Nat) (hne : value ≠ [])
    (t : Nat) (tab : Tab)
    (htab : (baseSendMessage UIMessage.GAMESETTINGS_SEARCH (some value) s).tabHolder_[t]?
      = some tab)
    (htag : tab.contents.Tag ≠ searchTabTag)
    (i : Nat) (hi : 1 ≤ i) (v : View) (hv : tab.contents.settingsList[i]? = some v)
    (hfoc : v.CanBeFocused = true) :
    ∃ (tab' : Tab) (vis : Visibility),
      (sendMessage baseSendMessage UIMessage.GAMESETTINGS_SEARCH (some value)
          s).tabHolder_[t]? = some tab'
        ∧ tab'.contents.settingsList[i]? = some (v.SetVisibility vis)
        ∧ (vis = Visibility.V_VISIBLE ↔ value.map tolower <:+: v.DescribeText.map tolower)
        ∧ (¬ (value.map tolower <:+: v.DescribeText.map tolower) →
            vis = Visibility.V_GONE) := by
  have hF : (value.map tolower).isEmpty = false := by
    cases value with
    | nil => exact absurd rfl hne
    | cons a as => rfl
  refine ⟨(filterTab (value.map tolower) tab false).1,
    filteredVisibility (value.map tolower) v, ?_, ?_, ?_, ?_⟩
  · unfold sendMessage
    simp only [Option.getD_some]
    rw [applySearchFilter_tabs]
    simp only [List.getElem?_map, htab, Option.map_some']
  · rw [filterTab_of_not_search _ _ _ htag]
    simp only []
    rw [onSettingsList_settingsList _ (filterSettings_sameViews _)]
    exact filterSettings_focusable _ _ i v hi hv hfoc
  · unfold filteredVisibility
    rw [hF, Bool.false_or]
    by_cases hm : viewMatches (value.map tolower) v = true
    · simp only [hm, if_true, true_iff]
      exact ((viewMatches_iff _ _).mp hm).2
    · simp only [hm]
      simp only [Bool.false_eq_true, if_false, false_iff]
      constructor
      · intro h; cases h
      · intro hin
        exact absurd ((viewMatches_iff _ _).mpr ⟨hfoc, hin⟩) hm
  · intro hnot
    unfold filteredVisibility
    rw [hF, Bool.false_or]
    have hm : ¬ viewMatches (value.map tolower) v = true :=
      fun h => hnot ((viewMatches_iff _ _).mp h).2
    simp only [hm]
    rfl

/-- An instance of C9: on the example screen, the search for `B` leaves the setting `AB` at
index 1 in place, with a visibility that is visible exactly when `b` occurs in `ab`. -/
theorem sendMessage_search_filters_focusable_views_witness :
    ∃ (tab' : Tab) (vis : Visibility),
      (sendMessage (fun _ _ s => s) UIMessage.GAMESETTINGS_SEARCH (some [66])
          exampleScreen).tabHolder_[0]? = some tab'
        ∧ tab'.contents.settingsList[1]? = some ((exampleSetting [65, 66]).SetVisibility vis)
        ∧ (vis = Visibility.V_VISIBLE ↔
            [66].map tolower <:+: (exampleSetting [65, 66]).DescribeText.map tolower)
        ∧ (¬ ([66].map tolower <:+: (exampleSetting [65, 66]).DescribeText.map tolower) →
            vis = Visibility.V_GONE) :=
  sendMessage_search_filters_focusable_views (fun _ _ s => s) exampleScreen [66] (by decide)
    0 exampleTab rfl (by decide) 1 (by decide) (exampleSetting [65, 66]) rfl rfl

/-- C10, as stated, fails: on a screen whose only tab starts with the focusable setting `b`,
followed by a header, `ApplySearchFilter` with the filter `b` leaves `noSearchResults_` visible
and the tab disabled, although the filter is non-empty and a focusable setting of a tab other
than the search tab has a label that contains it. The setting is at index 0 of the settings
list, which the loop does not visit. -/
theorem ApplySearchFilter_first_setting_counterexample :
    (ApplySearchFilter settingFirstScreen).noSearchResults_ = Visibility.V_VISIBLE
      ∧ settingFirstScreen.searchFilter_ ≠ []
      ∧ settingFirstScreen.tabHolder_[0]? = some settingFirstTab
      ∧ settingFirstTab.contents.Tag ≠ searchTabTag
      ∧ settingFirstTab.contents.settingsList[0]? = some (exampleSetting [98])
      ∧ (exampleSetting [98]).CanBeFocused = true
      ∧ settingFirstScreen.searchFilter_ <:+: (exampleSetting [98]).DescribeText.map tolower
      ∧ (ApplySearchFilter settingFirstScreen).tabHolder_.map Tab.enabled = [false] :=
  ⟨rfl, by decide, rfl, by decide, rfl, rfl, List.infix_refl _, rfl⟩

/-- C10, amended: after `ApplySearchFilter`, `noSearchResults_` is visible if and only if the
filter is non-empty and no focusable view at an index `i >= 1` of the settings list of a tab
other than the search tab has a lower-cased label that contains the filter; whenever such a view
matches, the notice is gone and the tab holding that view is enabled. -/
theorem ApplySearchFilter_noSearchResults_indexed (s : UITabbedBaseDialogScreen) :
    ((ApplySearchFilter s).noSearchResults_ = Visibility.V_VISIBLE ↔
        s.searchFilter_ ≠ [] ∧
          ∀ tab ∈ s.tabHolder_, tab.contents.Tag ≠ searchTabTag →
            ∀ (i : Nat) (v : View), 1 ≤ i → tab.contents.settingsList[i]? = some v →
              v.CanBeFocused = true → ¬ (s.searchFilter_ <:+: v.DescribeText.map tolower))
      ∧ (∀ (t : Nat) (tab : Tab) (i : Nat) (v : View), s.tabHolder_[t]? = some tab →
          tab.contents.Tag ≠ searchTabTag → 1 ≤ i →
          tab.contents.settingsList[i]? = some v →
          v.CanBeFocused = true → s.searchFilter_ <:+: v.DescribeText.map tolower →
          (ApplySearchFilter s).noSearchResults_ = Visibility.V_GONE
            ∧ ∃ tab', (ApplySearchFilter s).tabHolder_[t]? = some tab'
                ∧ tab'.enabled = true) := by
  constructor
  · rw [applySearchFilter_noSearchResults]
    have hiff := applySearchFilter_matches_iff s
    by_cases hm : (s.searchFilter_.isEmpty || s.tabHolder_.any (fun tab =>
          decide (tab.contents.Tag ≠ searchTabTag)
            && (filterSettings s.searchFilter_ tab.contents.settingsList).2)) = true
    · rw [if_pos hm]
      constructor
      · intro h; cases h
      · rintro ⟨hne, hall⟩
        rcases hiff.mp hm with h | ⟨tab, hmem, htag, i, v, hi, hv, hfoc, hin⟩
        · exact absurd h hne
        · exact absurd hin (hall tab hmem htag i v hi hv hfoc)
    · rw [if_neg hm]
      simp only [true_iff]
      constructor
      · intro h
        exact hm (hiff.mpr (Or.inl h))
      · intro tab hmem htag i v hi hv hfoc hin
        exact hm (hiff.mpr (Or.inr ⟨tab, hmem, htag, i, v, hi, hv, hfoc, hin⟩))
  · intro t tab i v htab htag hi hv hfoc hin
    have hmem : tab ∈ s.tabHolder_ := List.mem_iff_getElem?.mpr ⟨t, htab⟩
    constructor
    · rw [applySearchFilter_noSearchResults]
      rw [if_pos ((applySearchFilter_matches_iff s).mpr
        (Or.inr ⟨tab, hmem, htag, i, v, hi, hv, hfoc, hin⟩))]
    · refine ⟨(filterTab s.searchFilter_ tab false).1, ?_, ?_⟩
      · rw [applySearchFilter_tabs]
        simp only [List.getElem?_map, htab, Option.map_some']
      · rw [filterTab_of_not_search _ _ _ htag]
        exact (filterSettings_tabMatches _ _).mpr
          (Or.inr ⟨i, v, hi, hv, (viewMatches_iff _ _).mpr ⟨hfoc, hin⟩⟩)

/-- An instance of amended C10: on the example screen with the filter `c`, the setting `C` at
index 2 matches, so the notice is gone and the tab is enabled. -/
theorem ApplySearchFilter_noSearchResults_indexed_witness :
    (ApplySearchFilter { exampleScreen with searchFilter_ := [99] }).noSearchResults_
        = Visibility.V_GONE
      ∧ ∃ tab', (ApplySearchFilter { exampleScreen with searchFilter_ := [99] }).tabHolder_[0]?
          = some tab' ∧ tab'.enabled = true :=
  (ApplySearchFilter_noSearchResults_indexed { exampleScreen with searchFilter_ := [99] }).2
    0 exampleTab 2 (exampleSetting [67]) rfl (by decide) (by decide) rfl rfl
    (List.infix_refl _)

end UITabbedBaseDialogScreen

/-! ## Theorems: clearing the filter -/

namespace UITabbedBaseDialogScreen
open UI

theorem eraseVis_eraseVis (v : View) : eraseVis (eraseVis v) = eraseVis v :=
  eraseVis_setVisibility v Visibility.V_VISIBLE

theorem getElem?_setVisibilityAt_visible (l : List View) (i j : Nat) :
    (setVisibilityAt l i Visibility.V_VISIBLE)[j]? =
      if i = j then l[j]?.map eraseVis else l[j]? :=
  getElem?_setVisibilityAt l i j Visibility.V_VISIBLE

theorem filteredVisibility_nil (v : View) : filteredVisibility [] v = Visibility.V_VISIBLE :=
  rfl

theorem shownAt_headingShown (orig l : List View) (lh : Option Nat) (k : Nat)
    (h : ShownAt orig l k) : ShownAt orig (headingShown l lh) k := by
  cases lh with
  | none => exact h
  | some j =>
    unfold ShownAt at h ⊢
    simp only [headingShown]
    rw [getElem?_setVisibilityAt_visible]
    by_cases hjk : j = k
    · simp only [hjk, if_true]
      rw [h]
      cases orig[k]? with
      | none => rfl
      | some o => simp [eraseVis_eraseVis]
    · simp only [hjk, if_false]
      exact h

theorem filterView_shownAt (orig : List View) (st : FilterLoop) (i k : Nat)
    (hs : SameViews orig st.views) (hk : k = i ∨ ShownAt orig st.views k) :
    ShownAt orig (filterView [] st i).views k := by
  cases hv : st.views[i]? with
  | none =>
    rw [filterView_none [] st i hv]
    rcases hk with hk | hk
    · subst hk
      have hj := sameViews_getElem? hs k
      rw [hv] at hj
      unfold ShownAt
      rw [hv, ← hj]
      rfl
    · exact hk
  | some v =>
    rw [filterView_some [] st i v hv]
    simp only [filteredVisibility_nil]
    have hbase : SameViews orig
        (if viewMatches [] v then headingShown st.views st.lastHeading else st.views) := by
      split
      · exact sameViews_headingShown orig _ _ hs
      · exact hs
    unfold ShownAt
    rw [getElem?_setVisibilityAt_visible]
    by_cases hik : i = k
    · simp only [hik, if_true]
      exact sameViews_getElem? hbase k
    · simp only [hik, if_false]
      rcases hk with hk | hk
      · exact absurd hk.symm hik
      · have hshown : ShownAt orig
            (if viewMatches [] v then headingShown st.views st.lastHeading else st.views) k := by
          split
          · exact shownAt_headingShown orig _ _ k hk
          · exact hk
        exact hshown

theorem foldl_filterView_shownAt (orig : List View) (js : List Nat) (st : FilterLoop)
    (hs : SameViews orig st.views) (k : Nat) (hk : k ∈ js ∨ ShownAt orig st.views k) :
    ShownAt orig (js.foldl (filterView []) st).views k := by
  induction js generalizing st with
  | nil =>
    rcases hk with hk | hk
    · cases hk
    · exact hk
  | cons j js ih =>
    rw [List.foldl_cons]
    apply ih (filterView [] st j) (filterView_sameViews [] orig st j hs)
    rcases hk with hk | hk
    · rcases List.mem_cons.mp hk with hkj | hkjs
      · right; exact filterView_shownAt orig st j k hs (Or.inl hkj)
      · left; exact hkjs
    · right; exact filterView_shownAt orig st j k hs (Or.inr hk)

theorem filterSettings_nil_shown (views : List View) (k : Nat) (v : View) (hk : 1 ≤ k)
    (hv : views[k]? = some v) :
    (filterSettings [] views).1[k]? = some (v.SetVisibility Visibility.V_VISIBLE) := by
  have hlt : k < views.length := by
    rcases Nat.lt_or_ge k views.length with h | h
    · exact h
    · rw [List.getElem?_eq_none h] at hv; cases hv
  have hmem : k ∈ List.range' 1 (views.length - 1) := by
    rw [List.mem_range'_1]
    omega
  have h := foldl_filterView_shownAt views (List.range' 1 (views.length - 1))
    { views := views, lastHeading := none, tabMatches := true } (sameViews_refl views) k
    (Or.inl hmem)
  unfold ShownAt at h
  rw [hv] at h
  exact h

theorem filterSettings_nil_tabMatches (views : List View) :
    (filterSettings [] views).2 = true :=
  (filterSettings_tabMatches [] views).mpr (Or.inl rfl)

theorem sendMessage_search_eq
    (baseSendMessage : UIMessage → Option (List Nat) → UITabbedBaseDialogScreen →
      UITabbedBaseDialogScreen) (s : UITabbedBaseDialogScreen) (value : Option (List Nat)) :
    sendMessage baseSendMessage UIMessage.GAMESETTINGS_SEARCH value s =
      ApplySearchFilter
        { baseSendMessage UIMessage.GAMESETTINGS_SEARCH value s with
          searchFilter_ := (value.getD []).map tolower } :=
  rfl

/-- C11: clearing the filter restores everything. When the search message carries the empty
string or a null value, the filter notice, the no-results notice and the clear-filter choice
are gone afterwards, and every tab other than the search tab is enabled and has, at every index
`i >= 1` of its settings list, the view it had there before, now visible. -/
theorem sendMessage_clear_filter_restores
    (baseSendMessage : UIMessage → Option (List Nat) → UITabbedBaseDialogScreen →
      UITabbedBaseDialogScreen) (s : UITabbedBaseDialogScreen) (value : Option (List Nat))
    (hval : value = none ∨ value = some []) :
    (sendMessage baseSendMessage UIMessage.GAMESETTINGS_SEARCH value s).filterNotice_
        = Visibility.V_GONE
      ∧ (sendMessage baseSendMessage UIMessage.GAMESETTINGS_SEARCH value s).noSearchResults_
        = Visibility.V_GONE
      ∧ (sendMessage baseSendMessage UIMessage.GAMESETTINGS_SEARCH value s).clearSearchChoice_
        = Visibility.V_GONE
      ∧ ∀ (t : Nat) (tab : Tab),
          (baseSendMessage UIMessage.GAMESETTINGS_SEARCH value s).tabHolder_[t]? = some tab →
          tab.contents.Tag ≠ searchTabTag →
          ∃ tab' : Tab,
            (sendMessage baseSendMessage UIMessage.GAMESETTINGS_SEARCH value s).tabHolder_[t]?
                = some tab'
              ∧ tab'.enabled = true
              ∧ tab'.contents.settingsList.length = tab.contents.settingsList.length
              ∧ ∀ (i : Nat) (v : View), 1 ≤ i → tab.contents.settingsList[i]? = some v →
                  tab'.contents.settingsList[i]?
                    = some (v.SetVisibility Visibility.V_VISIBLE) := by
  have hF : (value.getD []).map tolower = [] := by
    rcases hval with h | h <;> rw [h] <;> rfl
  rw [sendMessage_search_eq, hF]
  refine ⟨rfl, ?_, rfl, ?_⟩
  · rw [applySearchFilter_noSearchResults]
    rfl
  · intro t tab htab htag
    refine ⟨(filterTab [] tab false).1, ?_, ?_, ?_, ?_⟩
    · rw [applySearchFilter_tabs]
      simp only [List.getElem?_map, htab, Option.map_some']
    · rw [filterTab_of_not_search _ _ _ htag]
      exact filterSettings_nil_tabMatches _
    · rw [filterTab_of_not_search _ _ _ htag]
      simp only []
      rw [onSettingsList_settingsList _ (filterSettings_sameViews _)]
      exact sameViews_length (filterSettings_sameViews [] _)
    · intro i v hi hv
      rw [filterTab_of_not_search _ _ _ htag]
      simp only []
      rw [onSettingsList_settingsList _ (filterSettings_sameViews _)]
      exact filterSettings_nil_shown _ i v hi hv

/-- An instance of C11: on the screen that a search without result left behind, the message
with a null value hides the three search views, enables the tab and shows the setting `AB`
again at index 1. -/
theorem sendMessage_clear_filter_restores_witness :
    (sendMessage (fun _ _ s => s) UIMessage.GAMESETTINGS_SEARCH none hiddenScreen).filterNotice_
        = Visibility.V_GONE
      ∧ ∃ tab' : Tab,
          (sendMessage (fun _ _ s => s) UIMessage.GAMESETTINGS_SEARCH none
              hiddenScreen).tabHolder_[0]? = some tab'
            ∧ tab'.enabled = true
            ∧ tab'.contents.settingsList[1]? = some (exampleSetting [65, 66]) :=
  have h := sendMessage_clear_filter_restores (fun _ _ s => s) hiddenScreen none (Or.inl rfl)
  ⟨h.1, (h.2.2.2 0 hiddenTab rfl (by decide)).imp fun _ ht =>
    ⟨ht.1, ht.2.1,
      ht.2.2.2 1 ((exampleSetting [65, 66]).SetVisibility Visibility.V_GONE) (by decide) rfl⟩⟩


end UITabbedBaseDialogScreen

/-! ## Theorems: the wave animation -/

namespace WaveAnimation

theorem steps_bounds (xres : Int) : 20 ≤ steps xres ∧ steps xres ≤ 500 := by
  unfold steps
  omega

theorem foldl_drawSegment (rectVertices : Nat) (ns : List Nat) (dc : UIContext) :
    (ns.foldl (drawSegment rectVertices) dc).rectangles = dc.rectangles + 4 * ns.length
      ∧ (ns.foldl (drawSegment rectVertices) dc).vertices
        = dc.vertices + 4 * rectVertices * ns.length := by
  induction ns generalizing dc with
  | nil => simp
  | cons n ns ih =>
    rw [List.foldl_cons]
    obtain ⟨h1, h2⟩ := ih (drawSegment rectVertices dc n)
    rw [h1, h2]
    simp only [drawSegment, RectVGradient, List.length_cons]
    constructor
    · omega
    · rw [Nat.mul_succ]
      omega

/-- C12: for every display width, the number of wave segments of `WaveAnimation::Draw`,
`steps = max(20, min((int)dp_xres, 500))`, satisfies `20 <= steps <= 500`; the loop issues
exactly `4 * steps <= 2000` gradient rectangles per frame, which at six vertices a rectangle
are `24 * steps <= 24 * 500 = 12000` vertices, below the 65536-vertex limit of one flush. -/
theorem WaveAnimation_steps_and_vertices (xres : Int) (dc : UIContext) :
    steps xres = max 20 (min xres 500)
      ∧ 20 ≤ steps xres ∧ steps xres ≤ 500
      ∧ ((drawWaves 6 xres dc).rectangles : Int) = dc.rectangles + 4 * steps xres
      ∧ (drawWaves 6 xres dc).rectangles - dc.rectangles ≤ 2000
      ∧ ((drawWaves 6 xres dc).vertices : Int) = 24 * steps xres
      ∧ (drawWaves 6 xres dc).vertices ≤ 24 * 500
      ∧ (drawWaves 6 xres dc).vertices ≤ 12000
      ∧ (drawWaves 6 xres dc).vertices < 65536
      ∧ (Draw 6 xres dc).vertices = 0 := by
  obtain ⟨hlo, hhi⟩ := steps_bounds xres
  obtain ⟨hr, hv⟩ := foldl_drawSegment 6 (List.range (steps xres).toNat) (Flush dc)
  rw [List.length_range] at hr hv
  have hr2 : (drawWaves 6 xres dc).rectangles = dc.rectangles + 4 * (steps xres).toNat := hr
  have hv2 : (drawWaves 6 xres dc).vertices = 0 + 4 * 6 * (steps xres).toNat := hv
  refine ⟨rfl, hlo, hhi, ?_, ?_, ?_, ?_, ?_, ?_, rfl⟩ <;> omega

end WaveAnimation
